import Mathlib

/-!
Rolling 24-hour proof-of-stake statistics of `ClientModel::update24hStatsTimer`.

Shallow embedding of `src/qt/clientmodel.cpp`, lines 37-50 (the file-level
state) and 80-211 (`ClientModel::update24hStatsTimer`).

Modelling conventions.

* `std::vector` is a `List`; index `0` is `begin()`, `push_back` appends at the
  end, `back()` is the last element.
* `std::map<std::string, CAmount>` is an association list; reading a key that
  is absent gives `0`, which is what `operator[]` default-constructs.
* `CAmount` (`int64_t`) is `Int`; 64-bit overflow is not modelled. Division is
  the truncating division of C++ (`Int.tdiv`).
* `uint32_t` block times are `Nat`; the sum `blockTime + 24*60*60` is computed
  in 32-bit unsigned arithmetic, hence the explicit `% 2 ^ 32`.
* Block heights (`int nHeight`) are `Nat`: the genesis block has height `0`
  and `pprev` of the block index at height `h + 1` is the one at height `h`.
* Everything the routine obtains from the node (locks, sync flags, clock, tip,
  blocks on disk, previous transactions) is collected in `Env`.
-/

namespace ClientModel

/-- Monetary amount (`CAmount`, a signed 64-bit integer in the source). -/
abbrev CAmount := Int

/-- The struct `statElement` (clientmodel.cpp:37-41). -/
structure statElement where
  /-- Field `uint32_t blockTime`. -/
  blockTime : Nat
  /-- Field `CAmount txInValue`, the value of the staked input. -/
  txInValue : CAmount
  /-- Field `mnPayee`, the (address, amount) pairs of the payees. -/
  mnPayee : List (String × CAmount)
  deriving DecidableEq

/-- Element type of `statSourceData`: `std::pair<int, statElement>`,
the block height and the statistics of the block. -/
abbrev StatEntry := Nat × statElement

/-- The type of `masternodeRewards`, a `std::map<std::string, CAmount>`. -/
abbrev RewardMap := List (String × CAmount)

/-- Value of `masternodeRewards[a]` when read: the stored value, `0` for an
absent key. -/
def rewardOf : RewardMap → String → CAmount
  | [], _ => 0
  | (k, v) :: rest, a => if k = a then v else rewardOf rest a

/-- The statement `masternodeRewards[k] += d` (an absent key is created with
value `0` first). -/
def rewardAdd : RewardMap → String → CAmount → RewardMap
  | [], k, d => [(k, 0 + d)]
  | (k', v) :: rest, k, d =>
    if k' = k then (k', v + d) :: rest else (k', v) :: rewardAdd rest k d

/-- What `update24hStatsTimer` uses of a block read from disk. -/
structure CBlock where
  /-- Header field `nTime` (`uint32_t`). -/
  nTime : Nat
  /-- Result of `block.IsProofOfStake()`. -/
  isProofOfStake : Bool
  /-- Result of `block.vtx[1].IsCoinStake()`. -/
  isCoinStake : Bool
  /-- Result of `GetTransaction(tx.vin[0].prevout.hash, txIn, ...)`: `none`
  when it fails, otherwise the value and the address of
  `txIn.vout[tx.vin[0].prevout.n]`. -/
  prevOut : Option (CAmount × String)
  /-- The outputs `tx.vout` of the coinstake, in order: for each one the
  string `addressOut` that lines 127-129 compute for it, and its `nValue`. -/
  vout : List (String × CAmount)

/-- Everything one invocation of `update24hStatsTimer` reads from outside. -/
structure Env where
  /-- Whether `TRY_LOCK(cs_main, lockMain)` succeeded. -/
  lockMain : Bool
  /-- Whether `TRY_LOCK(cs_stat, lockStat)` succeeded. -/
  lockStat : Bool
  /-- Result of `masternodeSync.IsBlockchainSynced()`. -/
  isBlockchainSynced : Bool
  /-- Result of `IsInitialBlockDownload()`. -/
  isInitialBlockDownload : Bool
  /-- Result of `GetTime()`, the reference time of the pass. -/
  syncStartTime : Int
  /-- Height `nHeight` of the block index of `chainActive.Tip()`. -/
  tipHeight : Nat
  /-- Result of `ReadBlockFromDisk` for the block index at a height of the
  active chain, `none` when the read fails. -/
  readBlock : Nat → Option CBlock
  /-- Value delivered by a read of `statSourceData[i].second.txInValue` with
  `i` outside the vector (undefined behaviour in C++). -/
  oobValue : CAmount

/-- The file-level variables of clientmodel.cpp (lines 42-50), the variables
`posMin`, `posMax`, `posMedian` assigned at lines 184-196, and the interval of
`poll24hStatsTimer`. -/
structure State where
  blockOldest : Nat
  blockLast : Nat
  statSourceData : List StatEntry
  masternodeRewards : RewardMap
  posMin : CAmount
  posMax : CAmount
  posMedian : CAmount
  block24hCount : Nat
  pollInterval : Nat
  deriving DecidableEq

/-- State at program start: the statics are zero-initialised, the containers
are empty; the timer interval is whatever the timer was started with. -/
def initState (interval : Nat) : State :=
  { blockOldest := 0, blockLast := 0, statSourceData := [],
    masternodeRewards := [], posMin := 0, posMax := 0, posMedian := 0,
    block24hCount := 0, pollInterval := interval }

/-! ## Decoding the coinstake outputs (lines 123-139) -/

/-- Local variables of the `decode txOut` loop. -/
structure DecodeAcc where
  /-- The running total `sumPoS`. -/
  sumPoS : CAmount
  /-- The list `blockStat.mnPayee` built so far. -/
  mnPayee : List (String × CAmount)
  /-- The map `masternodeRewards`. -/
  rewards : RewardMap

/-- One iteration of the `decode txOut` loop (lines 126-138). -/
def decodeStep (addressPoS : String) (valuePoS : CAmount) (acc : DecodeAcc)
    (txOut : String × CAmount) : DecodeAcc :=
  if addressPoS = txOut.1 ∧ valuePoS > acc.sumPoS then
    { acc with sumPoS := acc.sumPoS + txOut.2 }
  else
    { acc with mnPayee := acc.mnPayee ++ [txOut],
               rewards := rewardAdd acc.rewards txOut.1 txOut.2 }

/-- The whole `decode txOut` loop (lines 124-139), started with `sumPoS = 0`
and the empty `mnPayee`. -/
def decodeTxOut (addressPoS : String) (valuePoS : CAmount)
    (vout : List (String × CAmount)) (rewards : RewardMap) : DecodeAcc :=
  vout.foldl (decodeStep addressPoS valuePoS) ⟨0, [], rewards⟩

/-! ## The backward scan (lines 101-153) -/

/-- The test `(time + 24*60*60) < syncStartTime` of lines 143 and 161: the
left side is 32-bit unsigned, then compared as a 64-bit integer. -/
def olderThan24h (syncStartTime : Int) (time : Nat) : Bool :=
  decide ((((time + 86400) % 2 ^ 32 : Nat) : Int) < syncStartTime)

/-- Body of the `while` loop for the block index at `height` (lines 104-150).
The second component is `true` when the loop is left through `break`. -/
def scanBlock (env : Env) (height : Nat) (s : State) : State × Bool :=
  match env.readBlock height with
  | none => (s, false)
  | some block =>
    if block.isProofOfStake && block.isCoinStake then
      match block.prevOut with
      | none => (s, false)
      | some (valuePoS, addressPoS) =>
        let d := decodeTxOut addressPoS valuePoS block.vout s.masternodeRewards
        let blockStat : statElement :=
          { blockTime := block.nTime, txInValue := valuePoS, mnPayee := d.mnPayee }
        let s1 : State :=
          { s with statSourceData := s.statSourceData ++ [(height, blockStat)],
                   masternodeRewards := d.rewards }
        if olderThan24h env.syncStartTime block.nTime then
          ({ s1 with blockOldest := height }, true)
        else (s1, false)
    else (s, false)

/-- The loop `while (pblockindex->nHeight > blockLast)` (lines 103-153),
entered with `pblockindex` at the given height. -/
def scanLoop (env : Env) : Nat → State → State
  | 0, s => s
  | h + 1, s =>
    if h + 1 > s.blockLast then
      if (scanBlock env (h + 1) s).2 then (scanBlock env (h + 1) s).1
      else scanLoop env h (scanBlock env (h + 1) s).1
    else s

/-! ## Eviction (lines 155-173) -/

/-- The inner loop of lines 163-167: `masternodeRewards[a] -= v` for every
pair of the copied payee list `tMN`. -/
def subtractPayees (r : RewardMap) (tMN : List (String × CAmount)) : RewardMap :=
  tMN.foldl (fun m p => rewardAdd m p.1 (-p.2)) r

/-- The reverse-iterator loop of lines 160-172. The first argument is the
number of elements still to visit: with `i + 1` to go the iterator designates
index `i`. On an expired element the last element is copied over it
(`*it = statSourceData.back()`) and the vector is shortened by one
(`pop_back()`); the loop then moves on to index `i - 1` in either case. The
designated index stays inside the vector (the elements above it were visited
and kept, see `evictLoop_spec`), so the last branch is not taken. -/
def evictLoop (syncStartTime : Int) :
    Nat → List StatEntry × RewardMap → List StatEntry × RewardMap
  | 0, st => st
  | i + 1, (v, r) =>
    match v[i]?, v.getLast? with
    | some e, some last =>
      if olderThan24h syncStartTime e.2.blockTime then
        evictLoop syncStartTime i ((v.set i last).dropLast, subtractPayees r e.2.mnPayee)
      else evictLoop syncStartTime i (v, r)
    | _, _ => evictLoop syncStartTime i (v, r)

/-- Lines 155-173: the eviction loop under its guard `size() > 0`. -/
def evictOld (syncStartTime : Int) (v : List StatEntry) (r : RewardMap) :
    List StatEntry × RewardMap :=
  if v.length > 0 then evictLoop syncStartTime v.length (v, r) else (v, r)

/-! ## Statistics (lines 175-199) -/

/-- Modelled from the spec: the comparator `sortStat` handed to `std::sort`
is used at line 178 but defined nowhere in the source at hand; the spec says
"sort all stakeValues ascending", so it compares the stake values with `<`. -/
def sortStat (a b : StatEntry) : Bool := decide (a.2.txInValue < b.2.txInValue)

/-- Insertion of one element into a list ordered by `sortStat`. -/
def sortInsert (x : StatEntry) : List StatEntry → List StatEntry
  | [] => [x]
  | y :: ys => if sortStat y x then y :: sortInsert x ys else x :: y :: ys

/-- The call `sort(statSourceData.begin(), statSourceData.end(), sortStat)`,
as an insertion sort. -/
def stdSort (v : List StatEntry) : List StatEntry := v.foldr sortInsert []

/-- A read `statSourceData[i].second.txInValue`, `none` when the index is
outside the vector. -/
def readTxInValue (v : List StatEntry) (i : Int) : Option CAmount :=
  if 0 ≤ i then (v[i.toNat]?).map (fun e => e.2.txInValue) else none

/-- A read `statSourceData[i].second.txInValue`; outside the vector it
delivers `oob`. -/
def txInValueAt (oob : CAmount) (v : List StatEntry) (i : Int) : CAmount :=
  (readTxInValue v i).getD oob

/-- The index expression `int(statSourceData.size()/2)` of line 194. -/
def medianIndexHi (n : Nat) : Int := ((n / 2 : Nat) : Int)

/-- The index expression `int(statSourceData.size()/2)-1` of lines 194, 196. -/
def medianIndexLo (n : Nat) : Int := ((n / 2 : Nat) : Int) - 1

/-- The indices read by lines 193-197 for a vector of `n` elements. -/
def medianReads (n : Nat) : List Int :=
  if n % 2 = 1 then [medianIndexHi n, medianIndexLo n] else [medianIndexLo n]

/-- The accumulation loops of lines 182-183 and 185-186 over a range. -/
def addTxInValues (posAverage : CAmount) (range : List StatEntry) : CAmount :=
  range.foldl (fun acc e => acc + e.2.txInValue) posAverage

/-- Lines 177-198: sort, then `posMin`, `posMax`, `posMedian`, `block24hCount`. -/
def recalcStats (oob : CAmount) (s : State) : State :=
  let v := stdSort s.statSourceData
  let n := v.length
  let posAverage1 := addTxInValues 0 (v.take 100)
  let posAverage2 := addTxInValues posAverage1 (v.reverse.take 100)
  { s with
    statSourceData := v
    posMin := if n > 100 then posAverage1.tdiv 100 else txInValueAt oob v 0
    posMax := if n > 100 then posAverage2.tdiv 100 else txInValueAt oob v ((n : Int) - 1)
    posMedian :=
      if n % 2 = 1 then
        (txInValueAt oob v (medianIndexHi n) + txInValueAt oob v (medianIndexLo n)).tdiv 2
      else txInValueAt oob v (medianIndexLo n)
    block24hCount := n }

/-! ## The whole routine (lines 80-211) -/

/-- State after the scan of lines 101-153. -/
def afterScan (env : Env) (s : State) : State := scanLoop env env.tipHeight s

/-- State after the eviction of lines 155-173. -/
def afterEvict (env : Env) (s : State) : State :=
  let s1 := afterScan env s
  { s1 with
    statSourceData := (evictOld env.syncStartTime s1.statSourceData s1.masternodeRewards).1
    masternodeRewards := (evictOld env.syncStartTime s1.statSourceData s1.masternodeRewards).2 }

/-- The guard of line 176, `currentBlock > blockLast && size() > 0`, evaluated
after the eviction. -/
def recalcDue (env : Env) (s : State) : Bool :=
  decide (env.tipHeight > (afterEvict env s).blockLast) &&
    decide ((afterEvict env s).statSourceData.length > 0)

/-- State after the recalculation block of lines 175-199. -/
def afterRecalc (env : Env) (s : State) : State :=
  if recalcDue env s then recalcStats env.oobValue (afterEvict env s) else afterEvict env s

/-- Whether the invocation gets past the two `TRY_LOCK`s and the sync test
(lines 85-91). -/
def passRuns (env : Env) : Bool :=
  env.lockMain && env.lockStat && (env.isBlockchainSynced && !env.isInitialBlockDownload)

/-- The routine `ClientModel::update24hStatsTimer`. -/
def update24hStatsTimer (env : Env) (s : State) : State :=
  if !env.lockMain then s
  else if !env.lockStat then s
  else if env.isBlockchainSynced && !env.isInitialBlockDownload then
    let s3 := afterRecalc env s
    { s3 with
      blockLast := env.tipHeight
      pollInterval := if s3.pollInterval < 30000 then 30000 else s3.pollInterval }
  else s

/-- A sequence of invocations, in order. -/
def runPasses (s : State) (envs : List Env) : State :=
  envs.foldl (fun st env => update24hStatsTimer env st) s


/-! ## Specification-side definitions -/

/-- Spec wording (classification rule): the amount `R_i` reclaimed before
output `i`; `R` starts at `0` and grows by the amount of every earlier output
to the stake address `A` met while `V > R`. -/
def specReclaimed (A : String) (V : CAmount) (outs : List (String × CAmount)) :
    Nat → CAmount
  | 0 => 0
  | i + 1 =>
    match outs[i]? with
    | some o =>
      if o.1 = A ∧ V > specReclaimed A V outs i then specReclaimed A V outs i + o.2
      else specReclaimed A V outs i
    | none => specReclaimed A V outs i

/-- Spec wording (classification rule): the payees are, in output order, the
outputs `(addr_i, amt_i)` for which not (`addr_i = A` and `V > R_i`). -/
def specPayees (A : String) (V : CAmount) (outs : List (String × CAmount)) :
    List (String × CAmount) :=
  (outs.enum.filter
    (fun p => !decide (p.2.1 = A ∧ V > specReclaimed A V outs p.1))).map Prod.snd

/-- Sum of the amounts of a list of outputs. -/
def sumAmounts (l : List (String × CAmount)) : CAmount := (l.map Prod.snd).sum

/-- Sum of the amounts that a payee list holds for address `a`. -/
def payeeTotal (a : String) (l : List (String × CAmount)) : CAmount :=
  ((l.filter (fun p => decide (p.1 = a))).map Prod.snd).sum

/-- Spec wording (ledger invariant): the sum of the amounts of all
`(a, amount)` pairs in the `mnPayee` lists of the entries of a window. -/
def ledgerSum (a : String) (v : List StatEntry) : CAmount :=
  (v.map (fun e => payeeTotal a e.2.mnPayee)).sum

/-- The cached statistics `posMin`, `posMax`, `posMedian`, `block24hCount`. -/
def cachedStats (s : State) : CAmount × CAmount × CAmount × Nat :=
  (s.posMin, s.posMax, s.posMedian, s.block24hCount)

/-! ## Concrete inputs -/

/-- A readable proof-of-stake block whose coinstake spends an output of value
`v` owned by `a`. -/
def stakeBlock (time : Nat) (v : CAmount) (a : String)
    (outs : List (String × CAmount)) : CBlock :=
  { nTime := time, isProofOfStake := true, isCoinStake := true,
    prevOut := some (v, a), vout := outs }

/-- A chain with qualifying blocks at heights 1, 2 and 3; nothing can be read
at any other height. -/
def sampleChain (h : Nat) : Option CBlock :=
  if h = 1 then some (stakeBlock 100000 10 "X" [("X", 12), ("M", 3)])
  else if h = 2 then some (stakeBlock 150000 20 "Y" [("Y", 21), ("M", 3)])
  else if h = 3 then some (stakeBlock 160000 30 "X" [("X", 20), ("X", 15), ("N", 4)])
  else none

/-- An invocation on `sampleChain` that gets past the locks and the sync test,
with the tip at height `tip` and the clock at `time`. -/
def sampleEnv (tip : Nat) (time : Int) : Env :=
  { lockMain := true, lockStat := true, isBlockchainSynced := true,
    isInitialBlockDownload := false, syncStartTime := time, tipHeight := tip,
    readBlock := sampleChain, oobValue := 0 }

/-- Claim wording (C5): the median the claim states for stake values `s`
sorted ascending, `s[n/2 - 1]` for even `n` and the average of `s[n/2 - 1]`
and `s[n/2 + 1]` for odd `n`. -/
def claimedMedian (s : List CAmount) : CAmount :=
  if s.length % 2 = 0 then s.getD (s.length / 2 - 1) 0
  else (s.getD (s.length / 2 - 1) 0 + s.getD (s.length / 2 + 1) 0).tdiv 2

/-- Claim wording (C4): the maximum statistic the claim states for stake
values `s` sorted ascending, the largest value for `n <= 100` and the sum of
the 100 largest divided by 100 for `n > 100`. -/
def claimedPosMax (s : List CAmount) : CAmount :=
  if s.length ≤ 100 then s.getLastD 0 else ((s.reverse.take 100).sum).tdiv 100

/-- A window of three entries with stake values 30, 20, 10. -/
def threeEntryState : State :=
  { initState 1000 with
    statSourceData :=
      [(3, ⟨160000, 30, []⟩), (2, ⟨150000, 20, []⟩), (1, ⟨100000, 10, []⟩)]
    blockLast := 3 }

/-- An invocation on a chain whose block at every height `h` is a qualifying
proof-of-stake block of time 100000 staking the value `h`, with the tip at
height 101 and the clock at 100000. -/
def longChainEnv : Env :=
  { lockMain := true, lockStat := true, isBlockchainSynced := true,
    isInitialBlockDownload := false, syncStartTime := 100000, tipHeight := 101,
    readBlock := fun h => some (stakeBlock 100000 (h : Int) "X" []), oobValue := 0 }

/-! ## Lemmas on the output decoder -/

theorem decodeTxOut_snoc (A : String) (V : CAmount) (outs : List (String × CAmount))
    (o : String × CAmount) (r : RewardMap) :
    decodeTxOut A V (outs ++ [o]) r = decodeStep A V (decodeTxOut A V outs r) o := by
  simp [decodeTxOut, List.foldl_append]

theorem specReclaimed_snoc (A : String) (V : CAmount) (outs : List (String × CAmount))
    (o : String × CAmount) (i : Nat) (hi : i ≤ outs.length) :
    specReclaimed A V (outs ++ [o]) i = specReclaimed A V outs i := by
  induction i with
  | zero => rfl
  | succ k ih =>
    have hk : k < outs.length := hi
    have ih1 := ih (Nat.le_of_lt hk)
    simp only [specReclaimed, List.getElem?_append_left hk, ih1]

theorem specReclaimed_length_snoc (A : String) (V : CAmount)
    (outs : List (String × CAmount)) (o : String × CAmount) :
    specReclaimed A V (outs ++ [o]) (outs.length + 1) =
      if o.1 = A ∧ V > specReclaimed A V outs outs.length then
        specReclaimed A V outs outs.length + o.2
      else specReclaimed A V outs outs.length := by
  simp only [specReclaimed, specReclaimed_snoc A V outs o outs.length le_rfl]
  simp

theorem specPayees_snoc (A : String) (V : CAmount) (outs : List (String × CAmount))
    (o : String × CAmount) :
    specPayees A V (outs ++ [o]) =
      specPayees A V outs ++
        if o.1 = A ∧ V > specReclaimed A V outs outs.length then [] else [o] := by
  unfold specPayees
  rw [List.enum_append, List.filter_append, List.map_append]
  congr 1
  · congr 1
    apply List.filter_congr
    intro p hp
    have hlt : p.1 < outs.length := by
      have := List.fst_lt_of_mem_enum hp
      exact this
    rw [specReclaimed_snoc A V outs o p.1 (Nat.le_of_lt hlt)]
  · simp only [List.enumFrom_cons, List.enumFrom_nil, List.filter_cons, List.filter_nil,
      specReclaimed_snoc A V outs o outs.length le_rfl]
    by_cases h : o.1 = A ∧ V > specReclaimed A V outs outs.length
    · simp [h]
    · simp [h]

theorem decodeTxOut_spec (A : String) (V : CAmount) (outs : List (String × CAmount))
    (r : RewardMap) :
    (decodeTxOut A V outs r).sumPoS = specReclaimed A V outs outs.length ∧
      (decodeTxOut A V outs r).mnPayee = specPayees A V outs := by
  induction outs using List.reverseRecOn with
  | nil => exact ⟨rfl, rfl⟩
  | append_singleton outs o ih =>
    obtain ⟨ih1, ih2⟩ := ih
    rw [decodeTxOut_snoc, specPayees_snoc, List.length_append, List.length_singleton,
      specReclaimed_length_snoc]
    unfold decodeStep
    rw [ih1]
    by_cases h : o.1 = A ∧ V > specReclaimed A V outs outs.length
    · have h' : A = o.1 ∧ V > specReclaimed A V outs outs.length := ⟨h.1.symm, h.2⟩
      rw [if_pos h', if_pos h, if_pos h]
      simp [ih1, ih2]
    · have h' : ¬ (A = o.1 ∧ V > specReclaimed A V outs outs.length) :=
        fun hh => h ⟨hh.1.symm, hh.2⟩
      rw [if_neg h', if_neg h, if_neg h]
      simp [ih1, ih2]

theorem decodeTxOut_sumAmounts (A : String) (V : CAmount) (outs : List (String × CAmount))
    (r : RewardMap) :
    (decodeTxOut A V outs r).sumPoS + sumAmounts (decodeTxOut A V outs r).mnPayee =
      sumAmounts outs := by
  induction outs using List.reverseRecOn with
  | nil => simp [decodeTxOut, sumAmounts]
  | append_singleton outs o ih =>
    rw [decodeTxOut_snoc]
    unfold decodeStep
    unfold sumAmounts at ih ⊢
    split_ifs with h
    · simp only [List.map_append, List.sum_append, List.map_cons, List.map_nil,
        List.sum_cons, List.sum_nil]
      linarith
    · simp only [List.map_append, List.sum_append, List.map_cons, List.map_nil,
        List.sum_cons, List.sum_nil]
      linarith

theorem decodeTxOut_last_reclaim (A : String) (V : CAmount) (outs : List (String × CAmount))
    (r : RewardMap) :
    (decodeTxOut A V outs r).mnPayee = outs ∨
      ∃ pre o post, outs = pre ++ o :: post ∧ o.1 = A ∧
        (decodeTxOut A V pre r).sumPoS < V ∧
        (decodeTxOut A V outs r).sumPoS = (decodeTxOut A V pre r).sumPoS + o.2 ∧
        (decodeTxOut A V outs r).mnPayee = (decodeTxOut A V pre r).mnPayee ++ post := by
  induction outs using List.reverseRecOn with
  | nil => left; rfl
  | append_singleton outs o ih =>
    rw [decodeTxOut_snoc]
    by_cases h : A = o.1 ∧ V > (decodeTxOut A V outs r).sumPoS
    · right
      refine ⟨outs, o, [], by simp, h.1.symm, h.2, ?_, ?_⟩
      · simp only [decodeStep, if_pos h]
      · simp only [decodeStep, if_pos h, List.append_nil]
    · rcases ih with ih | ⟨pre, o', post, h1, h2, h3, h4, h5⟩
      · left
        simp [decodeStep, h, ih]
      · right
        refine ⟨pre, o', post ++ [o], by simp [h1], h2, h3, ?_, ?_⟩
        · simp only [decodeStep, if_neg h]
          exact h4
        · simp only [decodeStep, if_neg h]
          rw [h5, List.append_assoc]

/-! ## Coinstake classification (C2, C8) -/

/-- C2: the payees recorded for a coinstake with stake address `A` and stake
value `V` are exactly, in output order, the outputs for which not
(`addr_i = A` and `V > R_i`), `R_i` being the amount reclaimed before output
`i`; an output to `A` met once `R_i >= V` is a payee; for `V = 100`,
`A = X`, outputs `[(X,60),(X,40),(Y,10)]` the payees are `[(Y,10)]`; and this
list is what the scan stores in the entry of the block. -/
theorem C2_payee_classification (A : String) (V : CAmount)
    (outs : List (String × CAmount)) (r : RewardMap) :
    (decodeTxOut A V outs r).mnPayee = specPayees A V outs ∧
    (decodeTxOut A V outs r).sumPoS = specReclaimed A V outs outs.length ∧
    (∀ pre o post, outs = pre ++ o :: post → o.1 = A →
      V ≤ specReclaimed A V outs pre.length →
      (decodeTxOut A V (pre ++ [o]) r).mnPayee = (decodeTxOut A V pre r).mnPayee ++ [o] ∧
      o ∈ (decodeTxOut A V outs r).mnPayee) ∧
    (decodeTxOut "X" 100 [("X", 60), ("X", 40), ("Y", 10)] r).mnPayee = [("Y", 10)] ∧
    (∀ (env : Env) (h : Nat) (s : State) (block : CBlock),
      env.readBlock h = some block → block.isProofOfStake = true →
      block.isCoinStake = true → block.prevOut = some (V, A) → block.vout = outs →
      (scanBlock env h s).1.statSourceData =
        s.statSourceData ++
          [(h, { blockTime := block.nTime, txInValue := V, mnPayee := specPayees A V outs })]) := by
  refine ⟨(decodeTxOut_spec A V outs r).2, (decodeTxOut_spec A V outs r).1, ?_, ?_, ?_⟩
  · intro pre o post hsplit hA hge
    have hR : specReclaimed A V outs pre.length = (decodeTxOut A V pre r).sumPoS := by
      rw [(decodeTxOut_spec A V pre r).1, hsplit]
      have : pre ++ o :: post = pre ++ ([o] ++ post) := by simp
      rw [this]
      clear this hsplit hge
      induction post using List.reverseRecOn with
      | nil =>
        simpa using specReclaimed_snoc A V pre o pre.length le_rfl
      | append_singleton post x ih =>
        have e : pre ++ ([o] ++ (post ++ [x])) = (pre ++ ([o] ++ post)) ++ [x] := by simp
        rw [e, specReclaimed_snoc A V _ x pre.length (by simp), ih]
    have hno : ¬ (A = o.1 ∧ V > (decodeTxOut A V pre r).sumPoS) := by
      intro hh
      have := hh.2
      linarith
    have hstep : (decodeTxOut A V (pre ++ [o]) r).mnPayee =
        (decodeTxOut A V pre r).mnPayee ++ [o] := by
      rw [decodeTxOut_snoc]
      simp [decodeStep, hno]
    refine ⟨hstep, ?_⟩
    rw [(decodeTxOut_spec A V outs r).2, hsplit]
    unfold specPayees
    rw [List.mem_map]
    refine ⟨(pre.length, o), ?_, rfl⟩
    rw [List.mem_filter]
    constructor
    · rw [List.mem_iff_getElem?]
      refine ⟨pre.length, ?_⟩
      have hget : (pre ++ o :: post)[pre.length]? = some o := by
        rw [List.getElem?_append_right (le_refl _)]
        simp
      simp only [List.enum, List.getElem?_enumFrom, hget, Option.map_some', zero_add]
    · have : ¬ (V > specReclaimed A V (pre ++ o :: post) pre.length) := by
        rw [← hsplit]; intro hgt; linarith
      simp [this]
  · simp [decodeTxOut, decodeStep]
  · intro env h s block hread hpos hcs hprev hvout
    have hspec := (decodeTxOut_spec A V outs s.masternodeRewards).2
    unfold scanBlock
    cases ho : olderThan24h env.syncStartTime block.nTime with
    | true => simp [hread, hpos, hcs, hprev, hvout, ho, hspec]
    | false => simp [hread, hpos, hcs, hprev, hvout, ho, hspec]

/-- Witness of C2 at `V = 100`, `A = X`, outputs `[(X,100),(X,5)]`: the
second output, met when `R = 100`, is a payee. -/
theorem C2_payee_classification_witness :
    (decodeTxOut "X" 100 [("X", 100), ("X", 5)] []).mnPayee = [("X", 5)] ∧
    ("X", (5 : CAmount)) ∈ (decodeTxOut "X" 100 [("X", 100), ("X", 5)] []).mnPayee :=
  ⟨by simp [decodeTxOut, decodeStep],
   ((C2_payee_classification "X" 100 [("X", 100), ("X", 5)] []).2.2.1
      [("X", 100)] ("X", 5) [] rfl rfl (by decide)).2⟩

/-- C8, counterexample: for `V = 100`, `A = X` and outputs `[(X,60),(X,50)]`
both outputs are excluded from the payees; the second one is not recorded as
a payee and the excluded total is `110 > 100`. -/
theorem C8_counterexample :
    (decodeTxOut "X" 100 [("X", 60), ("X", 50)] []).mnPayee = [] ∧
    (decodeTxOut "X" 100 [("X", 60), ("X", 50)] []).sumPoS = 110 ∧
    ¬ ((decodeTxOut "X" 100 [("X", 60), ("X", 50)] []).sumPoS ≤ 100) := by
  simp [decodeTxOut, decodeStep]

/-- C8, amended: `sumPoS` is the total of the outputs excluded from the
payees; either nothing is excluded, or the amount excluded before the last
excluded output is strictly below `V` (so the excluded total is below `V` plus
that last amount) and every output after it is a payee; an output to `A` is
recorded as a payee exactly when the amount already reclaimed has reached
`V`. -/
theorem C8_reclaim_bound (A : String) (V : CAmount)
    (outs : List (String × CAmount)) (r : RewardMap) :
    (decodeTxOut A V outs r).sumPoS + sumAmounts (decodeTxOut A V outs r).mnPayee =
      sumAmounts outs ∧
    ((decodeTxOut A V outs r).mnPayee = outs ∨
      ∃ pre o post, outs = pre ++ o :: post ∧ o.1 = A ∧
        (decodeTxOut A V pre r).sumPoS < V ∧
        (decodeTxOut A V outs r).sumPoS = (decodeTxOut A V pre r).sumPoS + o.2 ∧
        (decodeTxOut A V outs r).mnPayee = (decodeTxOut A V pre r).mnPayee ++ post) ∧
    (∀ o : String × CAmount, o.1 = A →
      ((decodeTxOut A V (outs ++ [o]) r).mnPayee = (decodeTxOut A V outs r).mnPayee ++ [o] ↔
        V ≤ (decodeTxOut A V outs r).sumPoS)) := by
  refine ⟨decodeTxOut_sumAmounts A V outs r, decodeTxOut_last_reclaim A V outs r, ?_⟩
  intro o hA
  rw [decodeTxOut_snoc]
  by_cases h : V > (decodeTxOut A V outs r).sumPoS
  · have h' : A = o.1 ∧ V > (decodeTxOut A V outs r).sumPoS := ⟨hA.symm, h⟩
    simp only [decodeStep, if_pos h']
    constructor
    · intro hh
      have := congrArg List.length hh
      simp at this
    · intro hh; linarith
  · have h' : ¬ (A = o.1 ∧ V > (decodeTxOut A V outs r).sumPoS) := fun hh => h hh.2
    simp only [decodeStep, if_neg h']
    constructor
    · intro _; linarith
    · intro _; trivial

/-- Witness of C8 (amended) at `V = 100`, `A = X`: after `[(X,60)]` the
output `(X,50)` is not a payee, because `100 <= 60` fails. -/
theorem C8_reclaim_bound_witness :
    ((decodeTxOut "X" 100 ([("X", 60)] ++ [("X", 50)]) []).mnPayee =
        (decodeTxOut "X" 100 [("X", 60)] []).mnPayee ++ [("X", 50)] ↔
      (100 : CAmount) ≤ (decodeTxOut "X" 100 [("X", 60)] []).sumPoS) :=
  (C8_reclaim_bound "X" 100 [("X", 60)] []).2.2 ("X", 50) rfl

/-! ## Lemmas on the reward map -/

theorem rewardOf_rewardAdd (m : RewardMap) (k : String) (d : CAmount) (a : String) :
    rewardOf (rewardAdd m k d) a = rewardOf m a + if k = a then d else 0 := by
  induction m with
  | nil =>
    by_cases h : k = a <;> simp [rewardOf, rewardAdd, h]
  | cons p rest ih =>
    obtain ⟨k', v⟩ := p
    by_cases h1 : k' = k
    · subst h1
      by_cases h2 : k' = a <;> simp [rewardOf, rewardAdd, h2]
    · by_cases h2 : k' = a
      · subst h2
        have h3 : ¬ k = k' := fun h => h1 h.symm
        simp [rewardOf, rewardAdd, h1, h3]
      · simp [rewardOf, rewardAdd, h1, h2, ih]

theorem payeeTotal_nil (a : String) : payeeTotal a [] = 0 := rfl

theorem payeeTotal_cons (a : String) (p : String × CAmount) (l : List (String × CAmount)) :
    payeeTotal a (p :: l) = (if p.1 = a then p.2 else 0) + payeeTotal a l := by
  by_cases h : p.1 = a <;> simp [payeeTotal, List.filter_cons, h]

theorem payeeTotal_append (a : String) (l₁ l₂ : List (String × CAmount)) :
    payeeTotal a (l₁ ++ l₂) = payeeTotal a l₁ + payeeTotal a l₂ := by
  simp [payeeTotal, List.filter_append]

theorem rewardOf_subtractPayees (r : RewardMap) (l : List (String × CAmount)) (a : String) :
    rewardOf (subtractPayees r l) a = rewardOf r a - payeeTotal a l := by
  induction l generalizing r with
  | nil => simp [subtractPayees, payeeTotal]
  | cons p l ih =>
    have hstep : subtractPayees r (p :: l) = subtractPayees (rewardAdd r p.1 (-p.2)) l := rfl
    rw [hstep, ih, rewardOf_rewardAdd, payeeTotal_cons]
    by_cases h : p.1 = a
    · simp only [if_pos h]; ring
    · simp only [if_neg h]; ring

theorem rewardOf_decodeTxOut (A : String) (V : CAmount) (outs : List (String × CAmount))
    (r : RewardMap) (a : String) :
    rewardOf (decodeTxOut A V outs r).rewards a =
      rewardOf r a + payeeTotal a (decodeTxOut A V outs r).mnPayee := by
  induction outs using List.reverseRecOn with
  | nil => simp [decodeTxOut, payeeTotal]
  | append_singleton outs o ih =>
    rw [decodeTxOut_snoc]
    unfold decodeStep
    split_ifs with h
    · exact ih
    · simp only [rewardOf_rewardAdd, payeeTotal_append, payeeTotal_cons, payeeTotal_nil, ih]
      ring

/-! ## Lemmas on the ledger sum -/

theorem ledgerSum_nil (a : String) : ledgerSum a [] = 0 := rfl

theorem ledgerSum_cons (a : String) (e : StatEntry) (v : List StatEntry) :
    ledgerSum a (e :: v) = payeeTotal a e.2.mnPayee + ledgerSum a v := by
  simp [ledgerSum]

theorem ledgerSum_append (a : String) (v w : List StatEntry) :
    ledgerSum a (v ++ w) = ledgerSum a v + ledgerSum a w := by
  simp [ledgerSum]

theorem ledgerSum_perm (a : String) {v w : List StatEntry} (h : v.Perm w) :
    ledgerSum a v = ledgerSum a w :=
  (h.map _).sum_eq

theorem ledgerSum_filter_split (a : String) (p : StatEntry → Bool) (v : List StatEntry) :
    ledgerSum a v = ledgerSum a (v.filter (fun e => !p e)) + ledgerSum a (v.filter p) := by
  induction v with
  | nil => simp [ledgerSum]
  | cons e v ih =>
    by_cases h : p e = true
    · simp only [List.filter_cons, h, Bool.not_true, if_true, ledgerSum_cons]
      simp only [Bool.false_eq_true, if_false]
      rw [ih]; ring
    · have h' : p e = false := by simpa using h
      simp only [List.filter_cons, h', Bool.not_false, if_true, ledgerSum_cons]
      simp only [Bool.false_eq_true, if_false]
      rw [ih]; ring

/-! ## Lemmas on the eviction loop -/

theorem set_last_dropLast_nil (pre : List StatEntry) (x : StatEntry) :
    ((pre ++ [x]).set pre.length x).dropLast = pre := by
  simp

theorem set_last_dropLast_snoc (pre mid : List StatEntry) (x l : StatEntry) :
    (((pre ++ [x]) ++ (mid ++ [l])).set pre.length l).dropLast = pre ++ l :: mid := by
  have h1 : ((pre ++ [x]) ++ (mid ++ [l])) = pre ++ (x :: (mid ++ [l])) := by simp
  rw [h1, List.set_append_right _ _ (le_refl _)]
  simp only [Nat.sub_self, List.set_cons_zero]
  have h2 : pre ++ l :: (mid ++ [l]) = (pre ++ l :: mid) ++ [l] := by simp
  rw [h2, List.dropLast_concat]

theorem evictLoop_spec (t : Int) (pre : List StatEntry) :
    ∀ (post : List StatEntry) (r : RewardMap),
      (∀ e ∈ post, olderThan24h t e.2.blockTime = false) →
      ((evictLoop t pre.length (pre ++ post, r)).1).Perm
          (pre.filter (fun e => !olderThan24h t e.2.blockTime) ++ post) ∧
      ∀ a, rewardOf (evictLoop t pre.length (pre ++ post, r)).2 a =
          rewardOf r a -
            ledgerSum a (pre.filter (fun e => olderThan24h t e.2.blockTime)) := by
  induction pre using List.reverseRecOn with
  | nil =>
    intro post r _
    simp [evictLoop, ledgerSum]
  | append_singleton pre x ih =>
    intro post r hpost
    have hlen : (pre ++ [x]).length = pre.length + 1 := by simp
    have hget : ((pre ++ [x]) ++ post)[pre.length]? = some x := by
      rw [List.append_assoc, List.getElem?_append_right (le_refl _)]
      simp
    rw [hlen]
    by_cases hx : olderThan24h t x.2.blockTime = true
    · rcases List.eq_nil_or_concat post with hnil | ⟨mid, l, hcat⟩
      · subst hnil
        have hlast : ((pre ++ [x]) ++ ([] : List StatEntry)).getLast? = some x := by simp
        have hstep : evictLoop t (pre.length + 1) ((pre ++ [x]) ++ [], r) =
            evictLoop t pre.length (pre ++ [], subtractPayees r x.2.mnPayee) := by
          rw [evictLoop]
          simp only [hget, hlast, hx, if_true]
          rw [List.append_nil, set_last_dropLast_nil, List.append_nil]
        rw [hstep]
        obtain ⟨ih1, ih2⟩ := ih [] (subtractPayees r x.2.mnPayee) (by simp)
        refine ⟨?_, ?_⟩
        · simpa [List.filter_append, hx] using ih1
        · intro a
          rw [ih2 a, rewardOf_subtractPayees]
          simp only [List.filter_append, List.filter_cons, hx, if_true, List.filter_nil,
            ledgerSum_append, ledgerSum_cons, ledgerSum_nil]
          ring
      · rw [List.concat_eq_append] at hcat
        subst hcat
        have hlast : ((pre ++ [x]) ++ (mid ++ [l])).getLast? = some l := by
          simp [← List.append_assoc]
        have hstep : evictLoop t (pre.length + 1) ((pre ++ [x]) ++ (mid ++ [l]), r) =
            evictLoop t pre.length (pre ++ l :: mid, subtractPayees r x.2.mnPayee) := by
          rw [evictLoop]
          simp only [hget, hlast, hx, if_true]
          rw [set_last_dropLast_snoc]
        rw [hstep]
        have hpost' : ∀ e ∈ l :: mid, olderThan24h t e.2.blockTime = false := by
          intro e he
          apply hpost
          simp only [List.mem_cons] at he
          simp only [List.mem_append, List.mem_singleton]
          tauto
        obtain ⟨ih1, ih2⟩ := ih (l :: mid) (subtractPayees r x.2.mnPayee) hpost'
        refine ⟨?_, ?_⟩
        · refine ih1.trans ?_
          simp only [List.filter_append, List.filter_cons, hx, Bool.not_true,
            Bool.false_eq_true, if_false, List.filter_nil, List.append_nil]
          refine List.Perm.append_left _ ?_
          simpa using (List.perm_append_singleton l mid).symm
        · intro a
          rw [ih2 a, rewardOf_subtractPayees]
          simp only [List.filter_append, List.filter_cons, hx, if_true, List.filter_nil,
            ledgerSum_append, ledgerSum_cons, ledgerSum_nil]
          ring
    · have hx' : olderThan24h t x.2.blockTime = false := by simpa using hx
      have hlast : ∃ l, ((pre ++ [x]) ++ post).getLast? = some l := by
        rcases List.eq_nil_or_concat post with hnil | ⟨mid, l, hcat⟩
        · exact ⟨x, by simp [hnil]⟩
        · refine ⟨l, ?_⟩
          rw [hcat, List.concat_eq_append, ← List.append_assoc, List.getLast?_append]
          simp
      obtain ⟨l, hl⟩ := hlast
      have hstep : evictLoop t (pre.length + 1) ((pre ++ [x]) ++ post, r) =
          evictLoop t pre.length (pre ++ x :: post, r) := by
        rw [evictLoop]
        simp only [hget, hl, hx', Bool.false_eq_true, if_false]
        simp
      rw [hstep]
      have hpost' : ∀ e ∈ x :: post, olderThan24h t e.2.blockTime = false := by
        intro e he
        rcases List.mem_cons.mp he with h | h
        · rw [h]; exact hx'
        · exact hpost e h
      obtain ⟨ih1, ih2⟩ := ih (x :: post) r hpost'
      refine ⟨?_, ?_⟩
      · simpa [List.filter_append, hx'] using ih1
      · intro a
        rw [ih2 a]
        simp [List.filter_append, hx', ledgerSum_append, ledgerSum_nil]

theorem evictOld_spec (t : Int) (v : List StatEntry) (r : RewardMap) :
    ((evictOld t v r).1).Perm (v.filter (fun e => !olderThan24h t e.2.blockTime)) ∧
      ∀ a, rewardOf (evictOld t v r).2 a =
        rewardOf r a - ledgerSum a (v.filter (fun e => olderThan24h t e.2.blockTime)) := by
  unfold evictOld
  split_ifs with h
  · have := evictLoop_spec t v [] r (by simp)
    simpa using this
  · have hv : v = [] := by
      cases v with
      | nil => rfl
      | cons e v => simp at h
    subst hv
    simp [ledgerSum]

theorem evictLoop_noop (t : Int) (i : Nat) (v : List StatEntry) (r : RewardMap)
    (h : ∀ e ∈ v, olderThan24h t e.2.blockTime = false) :
    evictLoop t i (v, r) = (v, r) := by
  induction i with
  | zero => rfl
  | succ i ih =>
    rw [evictLoop]
    cases hget : v[i]? with
    | none => simpa using ih
    | some e =>
      cases hlast : v.getLast? with
      | none => simpa using ih
      | some last =>
        have he : olderThan24h t e.2.blockTime = false := h e (List.mem_iff_getElem?.mpr ⟨i, hget⟩)
        simpa [he] using ih

theorem evictOld_noop (t : Int) (v : List StatEntry) (r : RewardMap)
    (h : ∀ e ∈ v, olderThan24h t e.2.blockTime = false) :
    evictOld t v r = (v, r) := by
  unfold evictOld
  split_ifs
  · exact evictLoop_noop t v.length v r h
  · rfl

theorem evictOld_kept (t : Int) (v : List StatEntry) (r : RewardMap) :
    ∀ e ∈ (evictOld t v r).1, olderThan24h t e.2.blockTime = false := by
  intro e he
  have hp := (evictOld_spec t v r).1
  have := (hp.mem_iff).mp he
  simpa using (List.mem_filter.mp this).2

theorem olderThan24h_eq (t : Int) (time : Nat) (h : time + 86400 < 2 ^ 32) :
    olderThan24h t time = decide (((time + 86400 : Nat) : Int) < t) := by
  unfold olderThan24h
  rw [Nat.mod_eq_of_lt h]

/-! ## Lemmas on the sort -/

theorem sortInsert_perm (x : StatEntry) (l : List StatEntry) :
    (sortInsert x l).Perm (x :: l) := by
  induction l with
  | nil => exact List.Perm.refl _
  | cons y ys ih =>
    unfold sortInsert
    split_ifs
    · exact (ih.cons y).trans (List.Perm.swap x y ys)
    · exact List.Perm.refl _

theorem stdSort_perm (v : List StatEntry) : (stdSort v).Perm v := by
  induction v with
  | nil => exact List.Perm.refl _
  | cons x xs ih =>
    have : stdSort (x :: xs) = sortInsert x (stdSort xs) := rfl
    rw [this]
    exact (sortInsert_perm x _).trans (ih.cons x)

theorem stdSort_length (v : List StatEntry) : (stdSort v).length = v.length :=
  (stdSort_perm v).length_eq

theorem sortInsert_sorted (x : StatEntry) (l : List StatEntry)
    (h : l.Pairwise (fun a b => a.2.txInValue ≤ b.2.txInValue)) :
    (sortInsert x l).Pairwise (fun a b => a.2.txInValue ≤ b.2.txInValue) := by
  induction l with
  | nil => simp [sortInsert]
  | cons y ys ih =>
    rw [List.pairwise_cons] at h
    unfold sortInsert
    by_cases hyx : sortStat y x = true
    · rw [if_pos hyx, List.pairwise_cons]
      refine ⟨?_, ih h.2⟩
      intro z hz
      rcases List.mem_cons.mp ((sortInsert_perm x ys).mem_iff.mp hz) with hzx | hzy
      · rw [hzx]
        have : y.2.txInValue < x.2.txInValue := by simpa [sortStat] using hyx
        exact le_of_lt this
      · exact h.1 z hzy
    · rw [if_neg hyx]
      have hle : x.2.txInValue ≤ y.2.txInValue := by
        have : ¬ y.2.txInValue < x.2.txInValue := by simpa [sortStat] using hyx
        exact not_lt.mp this
      rw [List.pairwise_cons, List.pairwise_cons]
      refine ⟨?_, h.1, h.2⟩
      intro z hz
      rcases List.mem_cons.mp hz with hzy | hzy
      · rw [hzy]; exact hle
      · exact le_trans hle (h.1 z hzy)

theorem stdSort_sorted (v : List StatEntry) :
    (stdSort v).Pairwise (fun a b => a.2.txInValue ≤ b.2.txInValue) := by
  induction v with
  | nil => exact List.Pairwise.nil
  | cons x xs ih => exact sortInsert_sorted x _ ih

theorem stdSort_values (v : List StatEntry) (s : List CAmount)
    (hs : s.Sorted (fun a b => a ≤ b))
    (hp : s.Perm (v.map (fun e => e.2.txInValue))) :
    (stdSort v).map (fun e => e.2.txInValue) = s := by
  have h1 : ((stdSort v).map (fun e => e.2.txInValue)).Sorted (fun a b => a ≤ b) := by
    unfold List.Sorted
    rw [List.pairwise_map]
    exact stdSort_sorted v
  have h2 : ((stdSort v).map (fun e => e.2.txInValue)).Perm s :=
    ((stdSort_perm v).map _).trans hp.symm
  exact List.eq_of_perm_of_sorted h2 h1 hs

/-! ## Lemmas on the scan -/

theorem scanBlock_shape (env : Env) (h : Nat) (s : State) :
    (scanBlock env h s).1.blockLast = s.blockLast ∧
    (scanBlock env h s).1.posMin = s.posMin ∧
    (scanBlock env h s).1.posMax = s.posMax ∧
    (scanBlock env h s).1.posMedian = s.posMedian ∧
    (scanBlock env h s).1.block24hCount = s.block24hCount ∧
    (scanBlock env h s).1.pollInterval = s.pollInterval ∧
    ((scanBlock env h s).1.statSourceData = s.statSourceData ∨
      ∃ e, (scanBlock env h s).1.statSourceData = s.statSourceData ++ [(h, e)]) := by
  unfold scanBlock
  cases env.readBlock h with
  | none => simp
  | some block =>
    by_cases hq : (block.isProofOfStake && block.isCoinStake) = true
    · cases hp : block.prevOut with
      | none => simp [hq, hp]
      | some vp =>
        obtain ⟨valuePoS, addressPoS⟩ := vp
        cases ho : olderThan24h env.syncStartTime block.nTime with
        | true => simp [hq, hp, ho]
        | false => simp [hq, hp, ho]
    · simp [hq]

theorem scanBlock_ledger (env : Env) (h : Nat) (s : State)
    (hs : ∀ a, rewardOf s.masternodeRewards a = ledgerSum a s.statSourceData) :
    ∀ a, rewardOf (scanBlock env h s).1.masternodeRewards a =
      ledgerSum a (scanBlock env h s).1.statSourceData := by
  intro a
  unfold scanBlock
  cases env.readBlock h with
  | none => simpa using hs a
  | some block =>
    by_cases hq : (block.isProofOfStake && block.isCoinStake) = true
    · cases hp : block.prevOut with
      | none => simpa [hq, hp] using hs a
      | some vp =>
        obtain ⟨valuePoS, addressPoS⟩ := vp
        cases ho : olderThan24h env.syncStartTime block.nTime with
        | true =>
          simp only [hq, hp, ho, if_true]
          rw [rewardOf_decodeTxOut, ledgerSum_append, ledgerSum_cons, ledgerSum_nil, hs a]
          ring
        | false =>
          simp only [hq, hp, ho, if_true, Bool.false_eq_true, if_false]
          rw [rewardOf_decodeTxOut, ledgerSum_append, ledgerSum_cons, ledgerSum_nil, hs a]
          ring
    · simpa [hq] using hs a

theorem scanLoop_ledger (env : Env) (h : Nat) :
    ∀ s : State, (∀ a, rewardOf s.masternodeRewards a = ledgerSum a s.statSourceData) →
      ∀ a, rewardOf (scanLoop env h s).masternodeRewards a =
        ledgerSum a (scanLoop env h s).statSourceData := by
  induction h with
  | zero => intro s hs; exact hs
  | succ h ih =>
    intro s hs
    rw [scanLoop]
    split_ifs
    · exact scanBlock_ledger env (h + 1) s hs
    · exact ih _ (scanBlock_ledger env (h + 1) s hs)
    · exact hs

theorem scanLoop_shape (env : Env) (h : Nat) :
    ∀ s : State,
      (scanLoop env h s).blockLast = s.blockLast ∧
      (scanLoop env h s).posMin = s.posMin ∧
      (scanLoop env h s).posMax = s.posMax ∧
      (scanLoop env h s).posMedian = s.posMedian ∧
      (scanLoop env h s).block24hCount = s.block24hCount ∧
      (scanLoop env h s).pollInterval = s.pollInterval ∧
      ∃ added : List StatEntry,
        (scanLoop env h s).statSourceData = s.statSourceData ++ added ∧
        (added.map Prod.fst).Pairwise (fun x y => x > y) ∧
        ∀ x ∈ added, s.blockLast < x.1 ∧ x.1 ≤ h := by
  induction h with
  | zero =>
    intro s
    exact ⟨rfl, rfl, rfl, rfl, rfl, rfl, [], by simp [scanLoop], by simp, by simp⟩
  | succ h ih =>
    intro s
    rw [scanLoop]
    obtain ⟨b1, b2, b3, b4, b5, b6, b7⟩ := scanBlock_shape env (h + 1) s
    by_cases hgt : h + 1 > s.blockLast
    · rw [if_pos hgt]
      have hone : ∃ n1 : List StatEntry,
          (scanBlock env (h + 1) s).1.statSourceData = s.statSourceData ++ n1 ∧
          (n1.map Prod.fst).Pairwise (fun x y => x > y) ∧
          (∀ x ∈ n1, x.1 = h + 1) := by
        rcases b7 with b7 | ⟨e, b7⟩
        · exact ⟨[], by simpa using b7, by simp, by simp⟩
        · exact ⟨[(h + 1, e)], b7, by simp, by simp⟩
      obtain ⟨n1, hn1, hn2, hn3⟩ := hone
      by_cases hbrk : (scanBlock env (h + 1) s).2 = true
      · rw [if_pos hbrk]
        refine ⟨b1, b2, b3, b4, b5, b6, n1, hn1, hn2, ?_⟩
        intro x hx
        rw [hn3 x hx]
        exact ⟨hgt, le_refl _⟩
      · rw [if_neg hbrk]
        obtain ⟨c1, c2, c3, c4, c5, c6, n2, hm1, hm2, hm3⟩ := ih (scanBlock env (h + 1) s).1
        refine ⟨c1.trans b1, c2.trans b2, c3.trans b3, c4.trans b4, c5.trans b5,
          c6.trans b6, n1 ++ n2, ?_, ?_, ?_⟩
        · rw [hm1, hn1, List.append_assoc]
        · rw [List.map_append, List.pairwise_append]
          refine ⟨hn2, hm2, ?_⟩
          intro x hx y hy
          obtain ⟨x', hx', rfl⟩ := List.mem_map.mp hx
          obtain ⟨y', hy', rfl⟩ := List.mem_map.mp hy
          have := (hm3 y' hy').2
          rw [hn3 x' hx']
          omega
        · intro x hx
          rcases List.mem_append.mp hx with hx | hx
          · rw [hn3 x hx]
            exact ⟨hgt, le_refl _⟩
          · have := hm3 x hx
            rw [b1] at this
            exact ⟨this.1, Nat.le_succ_of_le this.2⟩
    · rw [if_neg hgt]
      exact ⟨rfl, rfl, rfl, rfl, rfl, rfl, [], by simp, by simp, by simp⟩

theorem scanLoop_of_le (env : Env) (h : Nat) (s : State) (hle : h ≤ s.blockLast) :
    scanLoop env h s = s := by
  cases h with
  | zero => rfl
  | succ h =>
    rw [scanLoop, if_neg (by omega)]

/-! ## Lemmas on the whole routine -/

theorem update_of_runs (env : Env) (s : State) (h : passRuns env = true) :
    update24hStatsTimer env s =
      { afterRecalc env s with
        blockLast := env.tipHeight
        pollInterval :=
          if (afterRecalc env s).pollInterval < 30000 then 30000
          else (afterRecalc env s).pollInterval } := by
  unfold passRuns at h
  unfold update24hStatsTimer
  cases h1 : env.lockMain <;> cases h2 : env.lockStat <;>
    cases h3 : env.isBlockchainSynced <;> cases h4 : env.isInitialBlockDownload <;>
    simp [h1, h2, h3, h4] at h ⊢

theorem update_of_not_runs (env : Env) (s : State) (h : ¬ passRuns env = true) :
    update24hStatsTimer env s = s := by
  unfold passRuns at h
  unfold update24hStatsTimer
  cases h1 : env.lockMain <;> cases h2 : env.lockStat <;>
    cases h3 : env.isBlockchainSynced <;> cases h4 : env.isInitialBlockDownload <;>
    simp [h1, h2, h3, h4] at h ⊢

theorem afterRecalc_window_perm (env : Env) (s : State) :
    (afterRecalc env s).statSourceData.Perm (afterEvict env s).statSourceData := by
  unfold afterRecalc
  split_ifs
  · exact stdSort_perm _
  · exact List.Perm.refl _

theorem afterRecalc_rewards (env : Env) (s : State) :
    (afterRecalc env s).masternodeRewards = (afterEvict env s).masternodeRewards := by
  unfold afterRecalc
  split_ifs <;> rfl

theorem afterRecalc_pollInterval (env : Env) (s : State) :
    (afterRecalc env s).pollInterval = s.pollInterval := by
  have h := (scanLoop_shape env env.tipHeight s).2.2.2.2.2.1
  unfold afterRecalc
  split_ifs <;> exact h

theorem afterEvict_blockLast (env : Env) (s : State) :
    (afterEvict env s).blockLast = s.blockLast :=
  (scanLoop_shape env env.tipHeight s).1

theorem afterEvict_cachedStats (env : Env) (s : State) :
    cachedStats (afterEvict env s) = cachedStats s := by
  obtain ⟨_, h2, h3, h4, h5, _⟩ := scanLoop_shape env env.tipHeight s
  unfold cachedStats
  show ((afterScan env s).posMin, (afterScan env s).posMax, (afterScan env s).posMedian,
    (afterScan env s).block24hCount) = _
  unfold afterScan
  rw [h2, h3, h4, h5]

theorem afterEvict_window_perm (env : Env) (s : State) :
    (afterEvict env s).statSourceData.Perm
      ((afterScan env s).statSourceData.filter
        (fun e => !olderThan24h env.syncStartTime e.2.blockTime)) :=
  (evictOld_spec env.syncStartTime (afterScan env s).statSourceData
    (afterScan env s).masternodeRewards).1

theorem update_window_perm (env : Env) (s : State) (h : passRuns env = true) :
    (update24hStatsTimer env s).statSourceData.Perm
      ((afterScan env s).statSourceData.filter
        (fun e => !olderThan24h env.syncStartTime e.2.blockTime)) := by
  rw [update_of_runs env s h]
  exact (afterRecalc_window_perm env s).trans (afterEvict_window_perm env s)

theorem afterEvict_ledger (env : Env) (s : State)
    (hs : ∀ a, rewardOf s.masternodeRewards a = ledgerSum a s.statSourceData) :
    ∀ a, rewardOf (afterEvict env s).masternodeRewards a =
      ledgerSum a (afterEvict env s).statSourceData := by
  intro a
  have h1 := scanLoop_ledger env env.tipHeight s hs a
  have h2 := evictOld_spec env.syncStartTime (afterScan env s).statSourceData
    (afterScan env s).masternodeRewards
  show rewardOf (evictOld env.syncStartTime (afterScan env s).statSourceData
      (afterScan env s).masternodeRewards).2 a =
    ledgerSum a (evictOld env.syncStartTime (afterScan env s).statSourceData
      (afterScan env s).masternodeRewards).1
  rw [h2.2 a, ledgerSum_perm a h2.1]
  have h3 := ledgerSum_filter_split a (fun e => olderThan24h env.syncStartTime e.2.blockTime)
    (afterScan env s).statSourceData
  have h4 : rewardOf (afterScan env s).masternodeRewards a =
      ledgerSum a (afterScan env s).statSourceData := h1
  rw [h4, h3]
  ring

theorem update_ledger (env : Env) (s : State)
    (hs : ∀ a, rewardOf s.masternodeRewards a = ledgerSum a s.statSourceData) :
    ∀ a, rewardOf (update24hStatsTimer env s).masternodeRewards a =
      ledgerSum a (update24hStatsTimer env s).statSourceData := by
  intro a
  by_cases h : passRuns env = true
  · rw [update_of_runs env s h]
    show rewardOf (afterRecalc env s).masternodeRewards a =
      ledgerSum a (afterRecalc env s).statSourceData
    rw [afterRecalc_rewards, ledgerSum_perm a (afterRecalc_window_perm env s)]
    exact afterEvict_ledger env s hs a
  · rw [update_of_not_runs env s h]
    exact hs a

theorem runPasses_ledger (envs : List Env) :
    ∀ s : State, (∀ a, rewardOf s.masternodeRewards a = ledgerSum a s.statSourceData) →
      ∀ a, rewardOf (runPasses s envs).masternodeRewards a =
        ledgerSum a (runPasses s envs).statSourceData := by
  induction envs with
  | nil => intro s hs; exact hs
  | cons env rest ih =>
    intro s hs
    exact ih (update24hStatsTimer env s) (update_ledger env s hs)

theorem update_fixed (env : Env) (s : State) (hb : s.blockLast = env.tipHeight)
    (hk : ∀ e ∈ s.statSourceData, olderThan24h env.syncStartTime e.2.blockTime = false)
    (hp : 30000 ≤ s.pollInterval) :
    update24hStatsTimer env s = s := by
  by_cases hr : passRuns env = true
  · rw [update_of_runs env s hr]
    have h1 : afterScan env s = s := scanLoop_of_le env _ s (by omega)
    have h2 : afterEvict env s = s := by
      simp only [afterEvict, h1, evictOld_noop _ _ _ hk]
    have h3 : recalcDue env s = false := by
      unfold recalcDue
      rw [h2, hb]
      simp
    have h4 : afterRecalc env s = s := by
      unfold afterRecalc
      rw [h3]
      simpa using h2
    rw [h4]
    have h5 : ¬ s.pollInterval < 30000 := by omega
    rw [if_neg h5, ← hb]

  · exact update_of_not_runs env s hr

/-! ## The reward ledger (C1) -/

/-- C1: starting from the empty window and the empty `masternodeRewards`,
after every sequence of invocations of `update24hStatsTimer` (any chain
contents, tip heights and reference times; amounts are unbounded integers),
for every address `a` the value `masternodeRewards[a]` (`0` for an absent key)
is the sum of the amounts of all `(a, amount)` pairs in the `mnPayee` lists of
the entries held in `statSourceData`. -/
theorem C1_reward_ledger (interval : Nat) (envs : List Env) (a : String) :
    rewardOf (runPasses (initState interval) envs).masternodeRewards a =
      ledgerSum a (runPasses (initState interval) envs).statSourceData :=
  runPasses_ledger envs (initState interval) (fun _ => rfl) a

/-! ## Eviction (C3) -/

/-- C3: when `blockTime + 86400 < 2^32` for every entry, the eviction loop
leaves exactly the entries with `blockTime + 86400 >= t`, as a multiset;
every retained entry has `blockTime >= t - 24h`; and after a pass that got
past the locks and the sync test the window is that multiset, so no entry
with `blockTime < t - 24h` remains. -/
theorem C3_eviction (t : Int) (v : List StatEntry) (r : RewardMap)
    (hwrap : ∀ e ∈ v, e.2.blockTime + 86400 < 2 ^ 32) :
    ((evictOld t v r).1).Perm
      (v.filter (fun e => decide (t ≤ ((e.2.blockTime + 86400 : Nat) : Int)))) ∧
    (∀ e ∈ (evictOld t v r).1, t - 86400 ≤ (e.2.blockTime : Int)) ∧
    (∀ (env : Env) (s : State), passRuns env = true → env.syncStartTime = t →
      (afterScan env s).statSourceData = v →
      (update24hStatsTimer env s).statSourceData.Perm
        (v.filter (fun e => decide (t ≤ ((e.2.blockTime + 86400 : Nat) : Int)))) ∧
      ∀ e ∈ (update24hStatsTimer env s).statSourceData,
        e ∈ v ∧ t - 86400 ≤ (e.2.blockTime : Int)) := by
  have hfilter : v.filter (fun e => !olderThan24h t e.2.blockTime) =
      v.filter (fun e => decide (t ≤ ((e.2.blockTime + 86400 : Nat) : Int))) := by
    apply List.filter_congr
    intro e he
    rw [olderThan24h_eq t _ (hwrap e he)]
    generalize ((e.2.blockTime + 86400 : Nat) : Int) = x
    by_cases hlt : x < t
    · simp [hlt, not_le.mpr hlt]
    · simp [hlt, not_lt.mp hlt]
  have hkeep : ∀ e ∈ v.filter (fun e => decide (t ≤ ((e.2.blockTime + 86400 : Nat) : Int))),
      e ∈ v ∧ t - 86400 ≤ (e.2.blockTime : Int) := by
    intro e he
    obtain ⟨h1, h2⟩ := List.mem_filter.mp he
    have h3 : t ≤ ((e.2.blockTime + 86400 : Nat) : Int) := by simpa using h2
    refine ⟨h1, ?_⟩
    push_cast at h3
    linarith
  have hperm := (evictOld_spec t v r).1
  rw [hfilter] at hperm
  refine ⟨hperm, ?_, ?_⟩
  · intro e he
    exact (hkeep e (hperm.mem_iff.mp he)).2
  · intro env s hruns ht hv
    have hp := update_window_perm env s hruns
    rw [ht, hv, hfilter] at hp
    exact ⟨hp, fun e he => hkeep e (hp.mem_iff.mp he)⟩

/-- Witness of C3 on a window of five entries at `t = 100000`: the entries
with block times `20000` and `50000` are the ones retained. -/
theorem C3_eviction_witness :
    (∀ e ∈ ([(1, ⟨1, 0, []⟩), (2, ⟨20000, 0, []⟩), (3, ⟨3, 0, []⟩), (4, ⟨4, 0, []⟩),
        (5, ⟨50000, 0, []⟩)] : List StatEntry), e.2.blockTime + 86400 < 2 ^ 32) ∧
    ((evictOld 100000 [(1, ⟨1, 0, []⟩), (2, ⟨20000, 0, []⟩), (3, ⟨3, 0, []⟩),
        (4, ⟨4, 0, []⟩), (5, ⟨50000, 0, []⟩)] []).1).Perm
      (([(1, ⟨1, 0, []⟩), (2, ⟨20000, 0, []⟩), (3, ⟨3, 0, []⟩), (4, ⟨4, 0, []⟩),
        (5, ⟨50000, 0, []⟩)] : List StatEntry).filter
          (fun e => decide ((100000 : Int) ≤ ((e.2.blockTime + 86400 : Nat) : Int)))) :=
  ⟨by decide,
   (C3_eviction 100000 [(1, ⟨1, 0, []⟩), (2, ⟨20000, 0, []⟩), (3, ⟨3, 0, []⟩),
      (4, ⟨4, 0, []⟩), (5, ⟨50000, 0, []⟩)] [] (by decide)).1⟩

/-! ## Idempotence (C7) -/

/-- C7: running the routine again with the same chain, tip and reference
time leaves the whole state unchanged: `statSourceData`, `masternodeRewards`,
the cached statistics and `blockLast` (and `blockOldest` and the timer
interval as well). -/
theorem C7_pass_idempotent (env : Env) (s : State) :
    update24hStatsTimer env (update24hStatsTimer env s) = update24hStatsTimer env s := by
  by_cases hr : passRuns env = true
  · apply update_fixed
    · rw [update_of_runs env s hr]
    · intro e he
      have hp := update_window_perm env s hr
      have := (List.mem_filter.mp (hp.mem_iff.mp he)).2
      simpa using this
    · rw [update_of_runs env s hr]
      show 30000 ≤ if (afterRecalc env s).pollInterval < 30000 then 30000
        else (afterRecalc env s).pollInterval
      split_ifs <;> omega
  · rw [update_of_not_runs env s hr, update_of_not_runs env s hr]

/-! ## Block heights in the window (C6) -/

theorem update_blockLast_cases (env : Env) (s : State) :
    (update24hStatsTimer env s).blockLast = env.tipHeight ∨
      (update24hStatsTimer env s).blockLast = s.blockLast := by
  by_cases hr : passRuns env = true
  · left; rw [update_of_runs env s hr]
  · right; rw [update_of_not_runs env s hr]

theorem update_heights (env : Env) (s : State) (hle : s.blockLast ≤ env.tipHeight)
    (h1 : (s.statSourceData.map Prod.fst).Nodup)
    (h2 : ∀ e ∈ s.statSourceData, e.1 ≤ s.blockLast) :
    ((update24hStatsTimer env s).statSourceData.map Prod.fst).Nodup ∧
      ∀ e ∈ (update24hStatsTimer env s).statSourceData,
        e.1 ≤ (update24hStatsTimer env s).blockLast := by
  by_cases hr : passRuns env = true
  · have hp := update_window_perm env s hr
    obtain ⟨_, _, _, _, _, _, added, ha1, ha2, ha3⟩ := scanLoop_shape env env.tipHeight s
    have hscan : (afterScan env s).statSourceData = s.statSourceData ++ added := ha1
    have hnd : ((afterScan env s).statSourceData.map Prod.fst).Nodup := by
      rw [hscan, List.map_append, List.nodup_append]
      refine ⟨h1, ha2.imp (fun h => ne_of_gt h), ?_⟩
      intro x hx hy
      obtain ⟨e, he, rfl⟩ := List.mem_map.mp hx
      obtain ⟨e', he', hee⟩ := List.mem_map.mp hy
      have := h2 e he
      have := (ha3 e' he').1
      omega
    have hsub : (((afterScan env s).statSourceData.filter
        (fun e => !olderThan24h env.syncStartTime e.2.blockTime)).map Prod.fst).Sublist
        ((afterScan env s).statSourceData.map Prod.fst) :=
      (List.filter_sublist _).map _
    refine ⟨((hp.map Prod.fst).nodup_iff).mpr (hnd.sublist hsub), ?_⟩
    intro e he
    have hmem : e ∈ (afterScan env s).statSourceData :=
      (List.mem_filter.mp (hp.mem_iff.mp he)).1
    have hb : (update24hStatsTimer env s).blockLast = env.tipHeight := by
      rw [update_of_runs env s hr]
    rw [hb, hscan] at *
    rcases List.mem_append.mp hmem with hm | hm
    · exact le_trans (h2 e hm) hle
    · exact (ha3 e hm).2
  · rw [update_of_not_runs env s hr]
    exact ⟨h1, h2⟩

theorem runPasses_heights (envs : List Env) :
    ∀ s : State, (envs.map Env.tipHeight).Sorted (fun x y => x ≤ y) →
      (∀ env ∈ envs, s.blockLast ≤ env.tipHeight) →
      (s.statSourceData.map Prod.fst).Nodup →
      (∀ e ∈ s.statSourceData, e.1 ≤ s.blockLast) →
      ((runPasses s envs).statSourceData.map Prod.fst).Nodup ∧
        ∀ e ∈ (runPasses s envs).statSourceData, e.1 ≤ (runPasses s envs).blockLast := by
  induction envs with
  | nil => intro s _ _ h1 h2; exact ⟨h1, h2⟩
  | cons env rest ih =>
    intro s hsorted hle h1 h2
    have hstep := update_heights env s (hle env (List.mem_cons_self _ _)) h1 h2
    rw [List.map_cons, List.sorted_cons] at hsorted
    refine ih (update24hStatsTimer env s) hsorted.2 ?_ hstep.1 hstep.2
    intro env' henv'
    rcases update_blockLast_cases env s with hb | hb
    · rw [hb]
      exact hsorted.1 _ (List.mem_map_of_mem _ henv')
    · rw [hb]
      exact hle env' (List.mem_cons_of_mem _ henv')

theorem runPasses_blockLast_le (envs : List Env) :
    ∀ (s : State) (b : Nat), s.blockLast ≤ b → (∀ env ∈ envs, env.tipHeight ≤ b) →
      (runPasses s envs).blockLast ≤ b := by
  induction envs with
  | nil => intro s b hs _; exact hs
  | cons env rest ih =>
    intro s b hs hb
    refine ih (update24hStatsTimer env s) b ?_
      (fun env' h => hb env' (List.mem_cons_of_mem _ h))
    rcases update_blockLast_cases env s with h | h
    · rw [h]; exact hb env (List.mem_cons_self _ _)
    · rw [h]; exact hs

theorem runPasses_snoc (s : State) (envs : List Env) (env : Env) :
    runPasses s (envs ++ [env]) = update24hStatsTimer env (runPasses s envs) := by
  simp [runPasses, List.foldl_append]

/-- C6, the code at a failing input: on a chain with qualifying blocks at
heights 1 and 2, three completed passes that see the tip at heights 2, 1, 2
leave height 2 twice in `statSourceData`; line 201 lowered `blockLast` from 2
to 1 at the second pass, so the third pass scans height 2 again and the payee
`M` of block 2 is credited twice (`3 + 3 + 3 = 9` over two distinct blocks). -/
theorem C6_height_scanned_twice :
    ¬ ((runPasses (initState 1000)
        [sampleEnv 2 170000, sampleEnv 1 170000, sampleEnv 2 170000]).statSourceData.map
          Prod.fst).Nodup ∧
    (runPasses (initState 1000) [sampleEnv 2 170000, sampleEnv 1 170000]).blockLast <
      (runPasses (initState 1000) [sampleEnv 2 170000]).blockLast ∧
    (runPasses (initState 1000)
        [sampleEnv 2 170000, sampleEnv 1 170000, sampleEnv 2 170000]).statSourceData.map
          Prod.fst = [1, 2, 2] ∧
    rewardOf (runPasses (initState 1000)
        [sampleEnv 2 170000, sampleEnv 1 170000, sampleEnv 2 170000]).masternodeRewards "M"
      = 9 := by
  decide

/-- Extent of the defect of line 201: as long as the tip height seen by the
passes does not go down, the heights of the entries in `statSourceData` are
pairwise distinct, none exceeds `blockLast`, and `blockLast` does not
decrease. The routine itself does nothing to keep `blockLast` from going
down when the tip does. -/
theorem runPasses_heights_distinct (interval : Nat) (envs : List Env)
    (hmono : (envs.map Env.tipHeight).Sorted (fun x y => x ≤ y)) :
    ((runPasses (initState interval) envs).statSourceData.map Prod.fst).Nodup ∧
    (∀ e ∈ (runPasses (initState interval) envs).statSourceData,
      e.1 ≤ (runPasses (initState interval) envs).blockLast) ∧
    (∀ pre env post, envs = pre ++ env :: post →
      (runPasses (initState interval) pre).blockLast ≤
        (runPasses (initState interval) (pre ++ [env])).blockLast) ∧
    (∀ a, rewardOf (runPasses (initState interval) envs).masternodeRewards a =
      ledgerSum a (runPasses (initState interval) envs).statSourceData) := by
  have h := runPasses_heights envs (initState interval) hmono
    (fun _ _ => Nat.zero_le _) (by simp [initState]) (by simp [initState])
  refine ⟨h.1, h.2, ?_, runPasses_ledger envs (initState interval) (fun _ => rfl)⟩
  intro pre env post hsplit
  rw [runPasses_snoc]
  rcases update_blockLast_cases env (runPasses (initState interval) pre) with hb | hb
  · rw [hb]
    apply runPasses_blockLast_le pre (initState interval) env.tipHeight (Nat.zero_le _)
    intro env' henv'
    rw [hsplit, List.map_append, List.map_cons] at hmono
    have := (List.pairwise_append.mp hmono).2.2 env'.tipHeight
      (List.mem_map_of_mem _ henv') env.tipHeight (List.mem_cons_self _ _)
    exact this
  · rw [hb]

/-! ## The recomputation trigger (C9) -/

/-- C9, counterexample: after a first pass over the sample chain (tip 3), a
second pass whose only new block (height 4) does not qualify adds no entry,
evicts the entry of height 1 and changes the cached statistics from
`(10, 30, 15, 3)` to `(20, 30, 20, 2)`. -/
theorem C9_counterexample :
    (afterScan (sampleEnv 4 190000)
        (update24hStatsTimer (sampleEnv 3 170000) (initState 1000))).statSourceData =
      (update24hStatsTimer (sampleEnv 3 170000) (initState 1000)).statSourceData ∧
    cachedStats (update24hStatsTimer (sampleEnv 3 170000) (initState 1000)) =
      (10, 30, 15, 3) ∧
    cachedStats (update24hStatsTimer (sampleEnv 4 190000)
        (update24hStatsTimer (sampleEnv 3 170000) (initState 1000))) = (20, 30, 20, 2) ∧
    cachedStats (update24hStatsTimer (sampleEnv 4 190000)
        (update24hStatsTimer (sampleEnv 3 170000) (initState 1000))) ≠
      cachedStats (update24hStatsTimer (sampleEnv 3 170000) (initState 1000)) := by
  decide

/-- C9, amended: the cached statistics change only in a pass that gets past
the locks and the sync test, sees a tip height above `blockLast` (at least one
new block, qualifying or not) and ends with a non-empty window; a pass whose
tip height does not exceed `blockLast` leaves them unchanged; and when the
guard of line 176 holds they are the values computed from the window left by
the eviction. -/
theorem C9_recompute_trigger (env : Env) (s : State) :
    (cachedStats (update24hStatsTimer env s) ≠ cachedStats s →
      passRuns env = true ∧ env.tipHeight > s.blockLast ∧
        (update24hStatsTimer env s).statSourceData ≠ []) ∧
    (env.tipHeight ≤ s.blockLast →
      cachedStats (update24hStatsTimer env s) = cachedStats s) ∧
    (passRuns env = true → recalcDue env s = true →
      cachedStats (update24hStatsTimer env s) =
        cachedStats (recalcStats env.oobValue (afterEvict env s))) := by
  have key : cachedStats (update24hStatsTimer env s) ≠ cachedStats s →
      passRuns env = true ∧ env.tipHeight > s.blockLast ∧
        (update24hStatsTimer env s).statSourceData ≠ [] := by
    intro hne
    by_cases hr : passRuns env = true
    · have hst : cachedStats (update24hStatsTimer env s) = cachedStats (afterRecalc env s) := by
        rw [update_of_runs env s hr]; rfl
      have hw : (update24hStatsTimer env s).statSourceData =
          (afterRecalc env s).statSourceData := by
        rw [update_of_runs env s hr]
      by_cases hd : recalcDue env s = true
      · have hd' := hd
        unfold recalcDue at hd'
        rw [Bool.and_eq_true, decide_eq_true_eq, decide_eq_true_eq, afterEvict_blockLast] at hd'
        refine ⟨hr, hd'.1, ?_⟩
        rw [hw]
        intro hnil
        have hlen := (afterRecalc_window_perm env s).length_eq
        rw [hnil] at hlen
        simp at hlen
        omega
      · exfalso
        apply hne
        rw [hst]
        unfold afterRecalc
        rw [if_neg hd]
        exact afterEvict_cachedStats env s
    · exfalso
      apply hne
      rw [update_of_not_runs env s hr]
  refine ⟨key, ?_, ?_⟩
  · intro hle
    by_contra hne
    have := (key hne).2.1
    omega
  · intro hr hd
    rw [update_of_runs env s hr]
    show cachedStats (afterRecalc env s) = _
    unfold afterRecalc
    rw [if_pos hd]

/-- Witness of C9 (amended): the second pass of the counterexample changes
the statistics, and it did see a new block (tip 4 above `blockLast = 3`). -/
theorem C9_recompute_trigger_witness :
    cachedStats (update24hStatsTimer (sampleEnv 4 190000)
        (update24hStatsTimer (sampleEnv 3 170000) (initState 1000))) ≠
      cachedStats (update24hStatsTimer (sampleEnv 3 170000) (initState 1000)) ∧
    (passRuns (sampleEnv 4 190000) = true ∧
      (sampleEnv 4 190000).tipHeight >
        (update24hStatsTimer (sampleEnv 3 170000) (initState 1000)).blockLast ∧
      (update24hStatsTimer (sampleEnv 4 190000)
        (update24hStatsTimer (sampleEnv 3 170000) (initState 1000))).statSourceData ≠ []) :=
  ⟨by decide,
   (C9_recompute_trigger (sampleEnv 4 190000)
      (update24hStatsTimer (sampleEnv 3 170000) (initState 1000))).1 (by decide)⟩

/-! ## Statistics (C4, C5, C10) -/

theorem readTxInValue_nat (v : List StatEntry) (k : Nat) :
    readTxInValue v (k : Int) = (v[k]?).map (fun e => e.2.txInValue) := by
  unfold readTxInValue
  simp

theorem txInValueAt_nat (oob : CAmount) (v : List StatEntry) (k : Nat) (hk : k < v.length) :
    txInValueAt oob v (k : Int) = (v.map (fun e => e.2.txInValue)).getD k 0 := by
  unfold txInValueAt
  rw [readTxInValue_nat, List.getD_eq_getElem?_getD, List.getElem?_map]
  rw [List.getElem?_eq_getElem hk]
  rfl

theorem medianIndexLo_nat (n : Nat) (hn : 2 ≤ n) :
    medianIndexLo n = ((n / 2 - 1 : Nat) : Int) := by
  unfold medianIndexLo
  have : 1 ≤ n / 2 := by omega
  omega

theorem medianReads_in_bounds (n : Nat) (hn : 2 ≤ n) :
    ∀ i ∈ medianReads n, 0 ≤ i ∧ i < (n : Int) := by
  intro i hi
  unfold medianReads medianIndexHi medianIndexLo at hi
  split_ifs at hi with hodd
  · simp only [List.mem_cons, List.mem_singleton, List.mem_nil_iff, or_false] at hi
    rcases hi with hi | hi <;> omega
  · simp only [List.mem_cons, List.mem_singleton, List.mem_nil_iff, or_false] at hi
    omega

theorem addTxInValues_eq (acc : CAmount) (l : List StatEntry) :
    addTxInValues acc l = acc + (l.map (fun e => e.2.txInValue)).sum := by
  unfold addTxInValues
  induction l generalizing acc with
  | nil => simp
  | cons e l ih =>
    simp only [List.foldl_cons, List.map_cons, List.sum_cons]
    rw [ih]
    ring

theorem recalcStats_posMax_large (oob : CAmount) (st : State)
    (h : 100 < st.statSourceData.length) :
    (recalcStats oob st).posMax =
      ((((stdSort st.statSourceData).take 100).map (fun e => e.2.txInValue)).sum +
        (((stdSort st.statSourceData).reverse.take 100).map
          (fun e => e.2.txInValue)).sum).tdiv 100 := by
  have hlen := stdSort_length st.statSourceData
  show (if (stdSort st.statSourceData).length > 100 then
      (addTxInValues (addTxInValues 0 ((stdSort st.statSourceData).take 100))
        ((stdSort st.statSourceData).reverse.take 100)).tdiv 100
    else _) = _
  rw [if_pos (by omega), addTxInValues_eq, addTxInValues_eq]
  simp

theorem recalcStats_posMax_small (oob : CAmount) (st : State)
    (h0 : 0 < st.statSourceData.length) (h : st.statSourceData.length ≤ 100) :
    some (recalcStats oob st).posMax =
      ((stdSort st.statSourceData).map (fun e => e.2.txInValue)).getLast? := by
  have hlen := stdSort_length st.statSourceData
  show some (if (stdSort st.statSourceData).length > 100 then _
    else txInValueAt oob (stdSort st.statSourceData)
      (((stdSort st.statSourceData).length : Int) - 1)) = _
  rw [if_neg (by omega)]
  have hcast : (((stdSort st.statSourceData).length : Int) - 1) =
      (((stdSort st.statSourceData).length - 1 : Nat) : Int) := by omega
  rw [hcast]
  unfold txInValueAt
  rw [readTxInValue_nat, List.getLast?_eq_getElem?, List.length_map, List.getElem?_map]
  rw [List.getElem?_eq_getElem (by omega)]
  rfl

/-- C5, counterexample: on a window with stake values 10, 20, 30 the routine
stores `posMedian = (20 + 10) / 2 = 15`, while the formula of the claim,
`(s[n/2 - 1] + s[n/2 + 1]) / 2`, gives `(10 + 30) / 2 = 20`. -/
theorem C5_counterexample :
    (stdSort threeEntryState.statSourceData).map (fun e => e.2.txInValue) = [10, 20, 30] ∧
    (recalcStats 0 threeEntryState).posMedian = 15 ∧
    claimedMedian [10, 20, 30] = 20 ∧
    (recalcStats 0 threeEntryState).posMedian ≠
      claimedMedian ((stdSort threeEntryState.statSourceData).map (fun e => e.2.txInValue)) := by
  decide

/-- C5, amended: when the statistics are recomputed over a window of `n >= 2`
entries whose stake values sorted ascending are `s`, `posMedian` is
`s[n/2 - 1]` for even `n`, and for odd `n` it is the average (truncating
division by 2) of `s[n/2]` and `s[n/2 - 1]`. -/
theorem C5_median_formula (oob : CAmount) (st : State) (s : List CAmount)
    (hs : s.Sorted (fun a b => a ≤ b))
    (hp : s.Perm (st.statSourceData.map (fun e => e.2.txInValue)))
    (hn : 2 ≤ st.statSourceData.length) :
    (recalcStats oob st).posMedian =
      if st.statSourceData.length % 2 = 0 then s.getD (st.statSourceData.length / 2 - 1) 0
      else (s.getD (st.statSourceData.length / 2) 0 +
        s.getD (st.statSourceData.length / 2 - 1) 0).tdiv 2 := by
  have hv := stdSort_values st.statSourceData s hs hp
  have hlen := stdSort_length st.statSourceData
  have hlo : st.statSourceData.length / 2 - 1 < (stdSort st.statSourceData).length := by
    rw [hlen]; omega
  have hhi : st.statSourceData.length / 2 < (stdSort st.statSourceData).length := by
    rw [hlen]; omega
  show (if (stdSort st.statSourceData).length % 2 = 1 then
      (txInValueAt oob (stdSort st.statSourceData)
          (medianIndexHi (stdSort st.statSourceData).length) +
        txInValueAt oob (stdSort st.statSourceData)
          (medianIndexLo (stdSort st.statSourceData).length)).tdiv 2
    else txInValueAt oob (stdSort st.statSourceData)
      (medianIndexLo (stdSort st.statSourceData).length)) = _
  rw [hlen, medianIndexLo_nat _ hn]
  unfold medianIndexHi
  rw [txInValueAt_nat oob _ _ hlo, txInValueAt_nat oob _ _ hhi, hv]
  by_cases hpar : st.statSourceData.length % 2 = 0
  · rw [if_pos hpar, if_neg (by omega)]
  · rw [if_neg hpar, if_pos (by omega)]

/-- Witness of C5 (amended) on the window with stake values 30, 20, 10. -/
theorem C5_median_formula_witness :
    ([10, 20, 30] : List CAmount).Sorted (fun a b => a ≤ b) ∧
    ([10, 20, 30] : List CAmount).Perm
      (threeEntryState.statSourceData.map (fun e => e.2.txInValue)) ∧
    2 ≤ threeEntryState.statSourceData.length ∧
    (recalcStats 0 threeEntryState).posMedian =
      if threeEntryState.statSourceData.length % 2 = 0 then
        ([10, 20, 30] : List CAmount).getD (threeEntryState.statSourceData.length / 2 - 1) 0
      else (([10, 20, 30] : List CAmount).getD (threeEntryState.statSourceData.length / 2) 0 +
        ([10, 20, 30] : List CAmount).getD
          (threeEntryState.statSourceData.length / 2 - 1) 0).tdiv 2 :=
  ⟨by decide, by decide, by decide,
   C5_median_formula 0 threeEntryState [10, 20, 30] (by decide) (by decide) (by decide)⟩

set_option maxRecDepth 1000000

/-- C4, the code at a failing input: a first pass over a chain of 101
qualifying blocks staking 1, 2, ..., 101 stores `posMax = 102`, the sum of the
100 smallest and the 100 largest stake values divided by 100, where the claim
gives the average of the 100 largest, `51`; the stored value even exceeds the
largest stake value `101`. -/
theorem C4_posMax_at_101_entries :
    (update24hStatsTimer longChainEnv (initState 1000)).statSourceData.length = 101 ∧
    (update24hStatsTimer longChainEnv (initState 1000)).posMax = 102 ∧
    claimedPosMax ((update24hStatsTimer longChainEnv (initState 1000)).statSourceData.map
      (fun e => e.2.txInValue)) = 51 ∧
    (update24hStatsTimer longChainEnv (initState 1000)).posMin = 50 := by
  decide

/-- C10, the code at a failing input: the first pass over a chain whose tip
(height 1) is the only qualifying block recomputes the statistics over a
window of one entry, and the index `int(size/2)-1` read by line 194 is `-1`,
outside the vector. -/
theorem C10_median_read_at_one_entry :
    passRuns (sampleEnv 1 170000) = true ∧
    recalcDue (sampleEnv 1 170000) (initState 1000) = true ∧
    (afterEvict (sampleEnv 1 170000) (initState 1000)).statSourceData.length = 1 ∧
    medianReads 1 = [0, -1] ∧
    ¬ (∀ i ∈ medianReads 1, 0 ≤ i ∧ i ≤ 1 - 1) ∧
    readTxInValue (stdSort (afterEvict (sampleEnv 1 170000) (initState 1000)).statSourceData)
      (medianIndexLo 1) = none := by
  decide

end ClientModel
